import Mathlib

/-!
Verification development for the `research-weekly-feed` paper-aggregation
pipeline.  The definitions below are a shallow embedding of the core scoring
engine: `src/filter.py` (keyword scorer: `PaperFilter`) and
`src/llm_scorer.py` (LLM scorer with a persistent decision cache:
`LLMPaperScorer`), over the `Paper` dataclass of
`src/fetchers/base_fetcher.py`.

Modelling conventions:
* Python `dict` is modelled by an insertion-ordered association list
  (`dictInsert` / `dictLookup`): a new key is appended at the end, updating an
  existing key rewrites its value in place.
* Python string `lower()`, `\w` and `\b` are modelled on the ASCII fragment
  (`Char.toLower`, alphanumeric-or-underscore word characters); all inputs the
  claims exercise are ASCII.
* `datetime` values are modelled as integers (seconds); `timedelta(days=d)` is
  `d * 86400`.
* The external LLM call plus JSON parse is an oracle
  `String → Except String Decision`; uncaught Python exceptions are modelled
  by `Except.error` results of the embedded functions.
* `hashlib.md5(...).hexdigest()` over the UTF-8 bytes of a string is embedded
  as a full executable MD5 (RFC 1321) on byte lists.
-/

/-! ### Python dict as an insertion-ordered association list -/

/-- Python `d[k] = v`: update the value in place when `k` is present
(keeping its position), else append the new binding at the end. -/
def dictInsert {α : Type} (m : List (String × α)) (k : String) (v : α) :
    List (String × α) :=
  match m with
  | [] => [(k, v)]
  | e :: rest =>
      if e.1 == k then (k, v) :: rest else e :: dictInsert rest k v

/-- Python `d.get(k)` / `k in d` lookup. -/
def dictLookup {α : Type} (m : List (String × α)) (k : String) : Option α :=
  match m.find? (fun e => e.1 == k) with
  | some e => some e.2
  | none => none

/-! ### UTF-8 encoding (Python `str.encode()`) -/

/-- UTF-8 bytes of a single code point. -/
def utf8Bytes (c : Char) : List Nat :=
  let n := c.toNat
  if n < 128 then [n]
  else if n < 2048 then [192 + n / 64, 128 + n % 64]
  else if n < 65536 then [224 + n / 4096, 128 + (n / 64) % 64, 128 + n % 64]
  else [240 + n / 262144, 128 + (n / 4096) % 64, 128 + (n / 64) % 64, 128 + n % 64]

/-- UTF-8 bytes of a string (Python `s.encode()`). -/
def strBytes (s : String) : List Nat :=
  s.data.foldr (fun c acc => utf8Bytes c ++ acc) []

/-! ### MD5 (RFC 1321), as used by `hashlib.md5(content.encode()).hexdigest()` -/

/-- Modulus for 32-bit words. -/
def m32 : Nat := 4294967296

/-- Bitwise complement within 32 bits (argument is `< 2^32`). -/
def not32 (a : Nat) : Nat := 4294967295 - a

/-- Left-rotation of a 32-bit word by `n` (with `0 < n < 32`). -/
def rotl32 (x n : Nat) : Nat := ((x * 2 ^ n) % m32) ||| (x / 2 ^ (32 - n))

/-- The 64 MD5 sine-derived constants. -/
def md5K : List Nat :=
  [0xd76aa478, 0xe8c7b756, 0x242070db, 0xc1bdceee,
   0xf57c0faf, 0x4787c62a, 0xa8304613, 0xfd469501,
   0x698098d8, 0x8b44f7af, 0xffff5bb1, 0x895cd7be,
   0x6b901122, 0xfd987193, 0xa679438e, 0x49b40821,
   0xf61e2562, 0xc040b340, 0x265e5a51, 0xe9b6c7aa,
   0xd62f105d, 0x02441453, 0xd8a1e681, 0xe7d3fbc8,
   0x21e1cde6, 0xc33707d6, 0xf4d50d87, 0x455a14ed,
   0xa9e3e905, 0xfcefa3f8, 0x676f02d9, 0x8d2a4c8a,
   0xfffa3942, 0x8771f681, 0x6d9d6122, 0xfde5380c,
   0xa4beea44, 0x4bdecfa9, 0xf6bb4b60, 0xbebfbc70,
   0x289b7ec6, 0xeaa127fa, 0xd4ef3085, 0x04881d05,
   0xd9d4d039, 0xe6db99e5, 0x1fa27cf8, 0xc4ac5665,
   0xf4292244, 0x432aff97, 0xab9423a7, 0xfc93a039,
   0x655b59c3, 0x8f0ccc92, 0xffeff47d, 0x85845dd1,
   0x6fa87e4f, 0xfe2ce6e0, 0xa3014314, 0x4e0811a1,
   0xf7537e82, 0xbd3af235, 0x2ad7d2bb, 0xeb86d391]

/-- The 64 MD5 per-round shift amounts. -/
def md5S : List Nat :=
  [7, 12, 17, 22, 7, 12, 17, 22, 7, 12, 17, 22, 7, 12, 17, 22,
   5, 9, 14, 20, 5, 9, 14, 20, 5, 9, 14, 20, 5, 9, 14, 20,
   4, 11, 16, 23, 4, 11, 16, 23, 4, 11, 16, 23, 4, 11, 16, 23,
   6, 10, 15, 21, 6, 10, 15, 21, 6, 10, 15, 21, 6, 10, 15, 21]

/-- The MD5 nonlinear mixing function of round `i`. -/
def md5F (i B C D : Nat) : Nat :=
  if i < 16 then Nat.lor (Nat.land B C) (Nat.land (not32 B) D)
  else if i < 32 then Nat.lor (Nat.land D B) (Nat.land (not32 D) C)
  else if i < 48 then Nat.xor (Nat.xor B C) D
  else Nat.xor C (Nat.lor B (not32 D))

/-- The MD5 message-word index of round `i`. -/
def md5G (i : Nat) : Nat :=
  if i < 16 then i
  else if i < 32 then (5 * i + 1) % 16
  else if i < 48 then (3 * i + 5) % 16
  else (7 * i) % 16

/-- Little-endian 32-bit word at word offset `j` of a byte list. -/
def leWord (bytes : List Nat) (j : Nat) : Nat :=
  bytes.getD (4 * j) 0 + 256 * bytes.getD (4 * j + 1) 0 +
    65536 * bytes.getD (4 * j + 2) 0 + 16777216 * bytes.getD (4 * j + 3) 0

/-- One MD5 round step on the state `(A, B, C, D)`. -/
def md5Step (M : List Nat) (st : Nat × Nat × Nat × Nat) (i : Nat) :
    Nat × Nat × Nat × Nat :=
  let (A, B, C, D) := st
  let F := (md5F i B C D + A + md5K.getD i 0 + M.getD (md5G i) 0) % m32
  (D, (B + rotl32 F (md5S.getD i 0)) % m32, B, C)

/-- Process one 64-byte chunk. -/
def md5Chunk (chunk : List Nat) (st : Nat × Nat × Nat × Nat) :
    Nat × Nat × Nat × Nat :=
  let M := (List.range 16).map (leWord chunk)
  let r := (List.range 64).foldl (md5Step M) st
  ((st.1 + r.1) % m32, (st.2.1 + r.2.1) % m32,
   (st.2.2.1 + r.2.2.1) % m32, (st.2.2.2 + r.2.2.2) % m32)

/-- Process all 64-byte chunks; `fuel` bounds the recursion and is supplied as
the byte length, which every recursive call strictly shrinks. -/
def md5Blocks : Nat → List Nat → Nat × Nat × Nat × Nat → Nat × Nat × Nat × Nat
  | _, [], st => st
  | 0, _, st => st
  | fuel + 1, bytes, st =>
      md5Blocks fuel (bytes.drop 64) (md5Chunk (bytes.take 64) st)

/-- Little-endian byte expansion of `n` to `count` bytes. -/
def leBytes (n : Nat) : Nat → List Nat
  | 0 => []
  | c + 1 => (n % 256) :: leBytes (n / 256) c

/-- MD5 padding: `0x80`, zeros to 56 mod 64, then the 64-bit little-endian
bit length. -/
def md5Pad (msg : List Nat) : List Nat :=
  let len := msg.length
  let zeros := (120 - (len + 1) % 64) % 64
  msg ++ [128] ++ List.replicate zeros 0 ++ leBytes ((len * 8) % 2 ^ 64) 8

/-- MD5 digest bytes of a message. -/
def md5Bytes (msg : List Nat) : List Nat :=
  let padded := md5Pad msg
  let r := md5Blocks padded.length padded
    (0x67452301, 0xefcdab89, 0x98badcfe, 0x10325476)
  leBytes r.1 4 ++ leBytes r.2.1 4 ++ leBytes r.2.2.1 4 ++ leBytes r.2.2.2 4

/-- Lowercase hex digit. -/
def hexDigit (n : Nat) : Char :=
  if n < 10 then Char.ofNat (48 + n) else Char.ofNat (87 + n)

/-- Two hex digits of a byte. -/
def byteHex (b : Nat) : List Char := [hexDigit (b / 16), hexDigit (b % 16)]

/-- Lowercase hex digest of an MD5 hash (`hexdigest()`). -/
def md5Hex (msg : List Nat) : String :=
  ⟨(md5Bytes msg).foldr (fun b acc => byteHex b ++ acc) []⟩

example : md5Hex (strBytes "abc") = "900150983cd24fb0d6963f7d28e17f72" := by decide

/-! ### Paper data model (`src/fetchers/base_fetcher.py`, dataclass `Paper`)

The LLM path attaches a metadata dict shaped either
`{confidence, reasoning, topics, cached}` or `{error, cached}`; the two shapes
are the two constructors of `ScoreMeta`. -/

/-- Metadata dict returned by `LLMPaperScorer.score_paper`. -/
inductive ScoreMeta : Type where
  | ok (confidence : String) (reasoning : String) (topics : List String)
      (cached : Bool)
  | err (msg : String) (cached : Bool)
deriving DecidableEq, Repr

/-- Python `metadata.get("topics", [])`. -/
def ScoreMeta.topicsD : ScoreMeta → List String
  | .ok _ _ topics _ => topics
  | .err _ _ => []

/-- Unified paper record (dataclass `Paper`).  `published` is a timestamp
modelled as an integer; `matched_keywords` defaults to `[]` via
`__post_init__`. -/
structure Paper : Type where
  title : String
  authors : List String
  abstract : String
  url : String
  published : Int
  source : String
  categories : Option (List String) := none
  doi : Option String := none
  pdf_url : Option String := none
  relevance_score : Int := 0
  matched_keywords : List String := []
  llm_metadata : Option ScoreMeta := none
deriving DecidableEq, Repr

/-! ### Keyword scorer (`src/filter.py`, class `PaperFilter`)

`_count_keyword_matches` counts whole-word occurrences with the regex
`r'\b' + re.escape(keyword) + r'\b'`.  `re.escape` makes the keyword a
literal, so an occurrence is a (leftmost, non-overlapping) position where the
keyword appears verbatim with a `\b` word boundary on each side.  `\b` holds
between two positions iff exactly one of the adjacent characters is a word
character (`[A-Za-z0-9_]`), with the ends of the string counting as
non-word. -/

/-- Word character of the regex class `\w` (ASCII fragment). -/
def isWordChar (c : Char) : Bool := c.isAlphanum || c == '_'

/-- Word-character test of an optional character; the ends of the string act
as non-word. -/
def isWordOpt : Option Char → Bool
  | some c => isWordChar c
  | none => false

/-- The regex `\b` assertion between two adjacent positions. -/
def isBoundary (prev next : Option Char) : Bool := isWordOpt prev != isWordOpt next

/-- Number of positions at which `\b` holds (this is what
`re.findall(r'\b\b', text)` counts for an empty keyword). -/
def countBoundaryPositions : Option Char → List Char → Nat
  | prev, [] => if isBoundary prev none then 1 else 0
  | prev, c :: cs =>
      (if isBoundary prev (some c) then 1 else 0) +
        countBoundaryPositions (some c) cs

/-- Leftmost non-overlapping scan for a non-empty literal keyword `kw` with
word boundaries on both sides.  `firstW`/`lastW` cache whether the first/last
keyword character is a word character; `prev` is the character just before the
current position; `fuel` bounds the recursion (every step consumes at least
one character of `rest`). -/
def scanCount (kw : List Char) (firstW lastW : Bool) :
    Nat → Option Char → List Char → Nat
  | 0, _, _ => 0
  | _ + 1, _, [] => 0
  | fuel + 1, prev, c :: cs =>
      if kw.isPrefixOf (c :: cs) && (isWordOpt prev != firstW) &&
          (lastW != isWordOpt ((c :: cs).drop kw.length).head?) then
        1 + scanCount kw firstW lastW fuel (some (kw.getLastD c))
              ((c :: cs).drop kw.length)
      else
        scanCount kw firstW lastW fuel (some c) cs

/-- Number of matches of `re.findall(r'\b' + re.escape(kw) + r'\b', text)`. -/
def countOcc (text kw : List Char) : Nat :=
  match kw with
  | [] => countBoundaryPositions none text
  | k0 :: _ =>
      scanCount kw (isWordChar k0) (isWordChar (kw.getLastD k0))
        (text.length + 1) none text

/-- Python `str.lower()` (ASCII fragment), written on the character list so
that it reduces in the kernel. -/
def lowerStr (s : String) : String := ⟨s.data.map Char.toLower⟩

/-- Keyword scorer configuration: `PaperFilter.__init__` stores the two
keyword lists lower-cased. -/
structure PaperFilter : Type where
  primary_keywords : List String
  secondary_keywords : List String
deriving DecidableEq, Repr

/-- `PaperFilter(primary_keywords, secondary_keywords)`: both lists are
lower-cased; a missing secondary list becomes `[]`. -/
def mkPaperFilter (primary : List String) (secondary : Option (List String)) :
    PaperFilter :=
  ⟨primary.map lowerStr, (secondary.getD []).map lowerStr⟩

/-- `PaperFilter._normalize_text`: lower-case the text. -/
def normalizeText (text : String) : String := lowerStr text

/-- `PaperFilter._count_keyword_matches`: a Python dict mapping each keyword
with a positive whole-word occurrence count in the normalized text to that
count. -/
def countKeywordMatches (text : String) (keywords : List String) :
    List (String × Nat) :=
  let ntext := (normalizeText text).data
  keywords.foldl
    (fun m kw =>
      let c := countOcc ntext kw.data
      if c > 0 then dictInsert m kw c else m)
    []

/-- `PaperFilter.score_paper`: searchable text is `f"{title} {abstract}"`;
primary keywords are worth 10 points per occurrence and secondary keywords 3;
`matched_keywords` lists the dict keys, primary first. -/
def score_paper (pf : PaperFilter) (paper : Paper) : Int × List String :=
  let searchable := paper.title ++ " " ++ paper.abstract
  let primary := countKeywordMatches searchable pf.primary_keywords
  let secondary := countKeywordMatches searchable pf.secondary_keywords
  let score : Int := primary.foldl (fun s e => s + (e.2 : Int) * 10) 0
  let score : Int := secondary.foldl (fun s e => s + (e.2 : Int) * 3) score
  (score, primary.map (·.1) ++ secondary.map (·.1))

/-! Sorting: `filtered_papers.sort(key=lambda p: p.relevance_score,
reverse=True)` is a stable sort placing higher scores first.  It is embedded
as `List.insertionSort` with the relation `scoreGE`, which is also a stable
sort (`orderedInsert` puts an element before the first element it relates to,
and later input elements are inserted into the sorted list of earlier
ones). -/

/-- Descending comparison on `relevance_score`. -/
def scoreGE (a b : Paper) : Prop := b.relevance_score ≤ a.relevance_score

instance : DecidableRel scoreGE := fun a b =>
  inferInstanceAs (Decidable (b.relevance_score ≤ a.relevance_score))

instance : IsTotal Paper scoreGE :=
  ⟨fun a b => (le_total b.relevance_score a.relevance_score).imp id id⟩

instance : IsTrans Paper scoreGE :=
  ⟨fun _ _ _ h h' => le_trans h' h⟩

/-- Python `list.sort(key=lambda p: p.relevance_score, reverse=True)`. -/
def sortByScoreDesc (l : List Paper) : List Paper := l.insertionSort scoreGE

/-- Score assignment performed on a retained paper inside
`PaperFilter.filter_papers`. -/
def applyScore (pf : PaperFilter) (p : Paper) : Paper :=
  { p with relevance_score := (score_paper pf p).1,
           matched_keywords := (score_paper pf p).2 }

/-- `PaperFilter.filter_papers`, with the in-place mutation made explicit:
the first component is the state of the caller's `papers` list after the call
(retained papers mutated, the rest untouched), the second is the returned
filtered, sorted list. -/
def filter_papers_run (pf : PaperFilter) (papers : List Paper)
    (min_score : Int) : List Paper × List Paper :=
  let acc := papers.foldl
    (fun acc p =>
      if min_score ≤ (score_paper pf p).1 then
        (acc.1 ++ [applyScore pf p], acc.2 ++ [applyScore pf p])
      else
        (acc.1 ++ [p], acc.2))
    ([], [])
  (acc.1, sortByScoreDesc acc.2)

/-- Return value of `PaperFilter.filter_papers`. -/
def filter_papers (pf : PaperFilter) (papers : List Paper)
    (min_score : Int) : List Paper :=
  (filter_papers_run pf papers min_score).2

/-- The `{high, medium, low}` grouping dict. -/
structure RelevanceGroups : Type where
  high : List Paper
  medium : List Paper
  low : List Paper
deriving DecidableEq, Repr

/-- Shared shape of the two `group_papers_by_relevance` loops (they differ
only in the two thresholds): append each paper to the tier its
`relevance_score` selects. -/
def groupByThresholds (hi lo : Int) (papers : List Paper) : RelevanceGroups :=
  papers.foldl
    (fun g p =>
      if p.relevance_score ≥ hi then { g with high := g.high ++ [p] }
      else if p.relevance_score ≥ lo then { g with medium := g.medium ++ [p] }
      else { g with low := g.low ++ [p] })
    ⟨[], [], []⟩

/-- `PaperFilter.group_papers_by_relevance`: keyword-mode thresholds
(`>= 20` high, `>= 10` medium, else low). -/
def group_papers_by_relevance (papers : List Paper) : RelevanceGroups :=
  groupByThresholds 20 10 papers

/-- `LLMPaperScorer.group_papers_by_relevance`: LLM-mode thresholds
(`>= 75` high, `>= 50` medium, else low). -/
def llm_group_papers_by_relevance (papers : List Paper) : RelevanceGroups :=
  groupByThresholds 75 50 papers

/-! ### LLM scorer (`src/llm_scorer.py`, class `LLMPaperScorer`)

The external judgment provider (DashScope or Azure chat completion plus JSON
parsing of its reply) is abstracted as an oracle
`String → Except String Decision` applied to the built prompt: `.ok d` means
the call succeeded and its reply parsed to the structured decision `d`;
`.error e` means the call or the parse raised with message `e`.  Uncaught
Python exceptions of the embedded functions themselves are `Except.error`
results.  Timestamps (`datetime.now()`) are passed in explicitly. -/

/-- Structured decision parsed from a provider reply: fields `relevant`,
`confidence`, `score`, `reasoning` and optional `topics` (read with
`decision.get("topics", [])`). -/
structure Decision : Type where
  relevant : Bool
  score : Int
  confidence : String
  reasoning : String
  topics : Option (List String) := none
deriving DecidableEq, Repr

/-- A timestamp string as stored in `cached_at`: either one that
`datetime.fromisoformat` parses (modelled by its integer time value) or one
it rejects. -/
inductive TimeVal : Type where
  | valid (t : Int)
  | invalid (s : String)
deriving DecidableEq, Repr

/-- One cache file: a parsable JSON decision record with an optional
`cached_at` field, or a file `json.load` fails on. -/
inductive CacheFile : Type where
  | entry (d : Decision) (cached_at : Option TimeVal)
  | corrupt
deriving DecidableEq, Repr

/-- Mutable scorer state: the cache directory (one file per key) and the
run statistics counters. -/
structure ScorerState : Type where
  cache : List (String × CacheFile) := []
  cache_hits : Nat := 0
  cache_misses : Nat := 0
  api_calls : Nat := 0
deriving DecidableEq, Repr

/-- Scorer configuration fields used by the scoring logic. -/
structure ScorerConfig : Type where
  research_interests : String
  provider : String
deriving DecidableEq, Repr

/-- `LLMPaperScorer._get_cache_key`: MD5 hex digest of the UTF-8 bytes of
`f"{title}|{abstract}"`. -/
def get_cache_key (title abstract : String) : String :=
  md5Hex (strBytes (title ++ "|" ++ abstract))

/-- `LLMPaperScorer._load_from_cache`: returns the cache file for the key if
present (incrementing `cache_hits`), else `none`. -/
def load_from_cache (st : ScorerState) (key : String) :
    Option CacheFile × ScorerState :=
  match dictLookup st.cache key with
  | some f => (some f, { st with cache_hits := st.cache_hits + 1 })
  | none => (none, st)

/-- `LLMPaperScorer._save_to_cache`: writes the decision with a `cached_at`
timestamp under the key (overwriting any existing file). -/
def save_to_cache (cache : List (String × CacheFile)) (key : String)
    (d : Decision) (now : Int) : List (String × CacheFile) :=
  dictInsert cache key (.entry d (some (.valid now)))

/-- `LLMPaperScorer._create_prompt`: the user prompt, with an explicit
placeholder when the abstract is empty or whitespace. -/
def create_prompt (cfg : ScorerConfig) (title abstract source : String) :
    String :=
  let paperInfo := "Source: " ++ source ++ "\nTitle: " ++ title ++
    (if abstract.data.any (fun c => !c.isWhitespace) then
      "\nAbstract: " ++ abstract
     else "\nAbstract: [Not available - please evaluate based on title only]")
  "You are an expert research assistant helping to filter academic papers." ++
    "\n\nResearch Interests:\n" ++ cfg.research_interests ++
    "\n\nPaper to Evaluate:\n" ++ paperInfo ++
    "\n\nTask: Determine if this paper is relevant to the research interests" ++
    " above.\n\nRespond with a JSON object with the following fields:\n" ++
    "- relevant: boolean\n- confidence: string\n- score: integer 0-100\n" ++
    "- reasoning: string\n- topics: list of strings\n\n" ++
    "Only respond with the JSON object, no additional text."

/-- `LLMPaperScorer.score_paper`: check the cache under the key of
`(title, abstract)`; on a hit return the cached decision tagged
`cached = True` without calling the provider; on a miss build the prompt,
call the provider, persist a successful decision, and turn any exception of
the call/parse path (including an unknown provider) into a
`(False, 0, {error, cached: False})` result.  A corrupt cache file makes
`json.load` raise outside the `try`, which propagates (`Except.error`). -/
def llm_score_paper (oracle : String → Except String Decision)
    (cfg : ScorerConfig) (now : Int) (st : ScorerState) (p : Paper) :
    Except String ((Bool × Int × ScoreMeta) × ScorerState) :=
  let key := get_cache_key p.title p.abstract
  match load_from_cache st key with
  | (some (.entry d _), st1) =>
      .ok ((d.relevant, d.score,
            .ok d.confidence d.reasoning (d.topics.getD []) true), st1)
  | (some .corrupt, _) => .error "cache file is not valid JSON"
  | (none, st1) =>
      let st2 := { st1 with cache_misses := st1.cache_misses + 1 }
      let prompt := create_prompt cfg p.title p.abstract p.source
      let st3 := { st2 with api_calls := st2.api_calls + 1 }
      if cfg.provider == "dashscope" || cfg.provider == "azure" then
        match oracle prompt with
        | .ok d =>
            let st4 := { st3 with
              cache := save_to_cache st3.cache key d now }
            .ok ((d.relevant, d.score,
                  .ok d.confidence d.reasoning (d.topics.getD []) false), st4)
        | .error e => .ok ((false, 0, .err e false), st3)
      else
        .ok ((false, 0,
              .err ("Unknown provider: " ++ cfg.provider) false), st3)

/-- Loop body of `LLMPaperScorer.score_papers_batch`: score each paper in
order, retain those with `score >= min_score` after mutating their scoring
fields. -/
def llm_score_batch_go (oracle : String → Except String Decision)
    (cfg : ScorerConfig) (now : Int) (min_score : Int) :
    List Paper → ScorerState → List Paper →
    Except String (List Paper × ScorerState)
  | [], st, acc => .ok (acc, st)
  | p :: ps, st, acc =>
      match llm_score_paper oracle cfg now st p with
      | .error e => .error e
      | .ok ((_, score, meta), st') =>
          if min_score ≤ score then
            llm_score_batch_go oracle cfg now min_score ps st'
              (acc ++ [{ p with relevance_score := score,
                                llm_metadata := some meta,
                                matched_keywords := meta.topicsD }])
          else
            llm_score_batch_go oracle cfg now min_score ps st' acc

/-- `LLMPaperScorer.score_papers_batch`: score sequentially, filter by
`min_score`, sort the retained papers by descending score. -/
def llm_score_papers_batch (oracle : String → Except String Decision)
    (cfg : ScorerConfig) (now : Int) (st : ScorerState) (papers : List Paper)
    (min_score : Int) : Except String (List Paper × ScorerState) :=
  match llm_score_batch_go oracle cfg now min_score papers st [] with
  | .error e => .error e
  | .ok (acc, st') => .ok (sortByScoreDesc acc, st')

/-- Predicate: the cache directory holds no file that `json.load` would
reject. -/
def NoCorrupt (cache : List (String × CacheFile)) : Prop :=
  ∀ e ∈ cache, e.2 ≠ CacheFile.corrupt

/-- Loop body of `LLMPaperScorer.clean_old_cache` for a single cache file:
delete it (counting the deletion) when its `cached_at` parses to a time
before the cutoff; keep it when the timestamp says otherwise, is missing, is
unparsable, or the file itself is unparsable (the `try`/`except Exception:
pass` around the body). -/
def cleanStep (cutoff : Int) (acc : List (String × CacheFile) × Nat)
    (kf : String × CacheFile) : List (String × CacheFile) × Nat :=
  match kf.2 with
  | .entry d (some (.valid t)) =>
      if t < cutoff then (acc.1, acc.2 + 1)
      else (acc.1 ++ [(kf.1, .entry d (some (.valid t)))], acc.2)
  | .entry d other => (acc.1 ++ [(kf.1, .entry d other)], acc.2)
  | .corrupt => (acc.1 ++ [(kf.1, .corrupt)], acc.2)

/-- `LLMPaperScorer.clean_old_cache`: sweep the cache directory with
`cleanStep` at cutoff `now - days * 86400` (`datetime.now() -
timedelta(days=days)`).  Returns the remaining cache and the number of files
removed. -/
def clean_old_cache (now : Int) (days : Int)
    (cache : List (String × CacheFile)) :
    List (String × CacheFile) × Nat :=
  cache.foldl (cleanStep (now - days * 86400)) ([], 0)

/-! ### Association-list (Python dict) lemmas -/

theorem dictLookup_cons {α : Type} (e : String × α) (l : List (String × α))
    (k : String) :
    dictLookup (e :: l) k = if e.1 == k then some e.2 else dictLookup l k := by
  by_cases h : (e.1 == k) = true
  · rw [if_pos h]
    unfold dictLookup
    rw [List.find?_cons_of_pos l h]
  · rw [if_neg h]
    unfold dictLookup
    rw [List.find?_cons_of_neg l h]

theorem dictLookup_dictInsert_self {α : Type} (m : List (String × α))
    (k : String) (v : α) : dictLookup (dictInsert m k v) k = some v := by
  induction m with
  | nil => simp [dictInsert, dictLookup]
  | cons e rest ih =>
    by_cases he : (e.1 == k) = true
    · rw [dictInsert, if_pos he, dictLookup_cons]
      simp
    · rw [dictInsert, if_neg he, dictLookup_cons, if_neg he]
      exact ih

theorem dictLookup_mem {α : Type} {m : List (String × α)} {k : String}
    {v : α} (h : dictLookup m k = some v) : (k, v) ∈ m := by
  unfold dictLookup at h
  cases hf : m.find? (fun e => e.1 == k) with
  | none => rw [hf] at h; cases h
  | some e =>
    rw [hf] at h
    have hm := List.mem_of_find?_eq_some hf
    have hp := List.find?_some hf
    have hk : e.1 = k := by simpa using hp
    have hv : e.2 = v := by simpa using h
    have : e = (k, v) := by
      cases e with
      | mk a b => simp_all
    rwa [this] at hm

theorem mem_dictInsert {α : Type} {m : List (String × α)} {k : String}
    {v : α} {e : String × α} (h : e ∈ dictInsert m k v) :
    e ∈ m ∨ e = (k, v) := by
  induction m with
  | nil =>
    right
    rw [dictInsert] at h
    exact List.mem_singleton.mp h
  | cons f rest ih =>
    rw [dictInsert] at h
    by_cases hf : (f.1 == k) = true
    · rw [if_pos hf] at h
      rcases List.mem_cons.mp h with h | h
      · exact Or.inr h
      · exact Or.inl (List.mem_cons_of_mem f h)
    · rw [if_neg hf] at h
      rcases List.mem_cons.mp h with h | h
      · exact Or.inl (h ▸ List.mem_cons_self f rest)
      · rcases ih h with h | h
        · exact Or.inl (List.mem_cons_of_mem f h)
        · exact Or.inr h

/-! ### Claim theorems: word-boundary matching and cache keys -/

/-- Sample paper whose searchable text contains "database" but never the
whole word "data". -/
def paperDatabase : Paper :=
  { title := "", authors := [], abstract := "database", url := "",
    published := 0, source := "" }

/-- Sample paper whose searchable text contains the whole word "data"
exactly once. -/
def paperBigData : Paper :=
  { title := "", authors := [], abstract := "big data research", url := "",
    published := 0, source := "" }

/-- C2.  Keyword occurrence counting is whole-word and case-insensitive: the
keyword "data" never matches inside "database" (in either case), while "big
data research" matches it exactly once; the same holds through
`score_paper` on papers carrying those abstracts. -/
theorem keyword_word_boundary :
    countKeywordMatches "database" ["data"] = [] ∧
    countKeywordMatches "big data research" ["data"] = [("data", 1)] ∧
    countKeywordMatches "The Database" ["data"] = [] ∧
    countKeywordMatches "Big Data research" ["data"] = [("data", 1)] ∧
    score_paper (mkPaperFilter ["data"] none) paperDatabase = (0, []) ∧
    score_paper (mkPaperFilter ["data"] none) paperBigData = (10, ["data"]) := by
  refine ⟨?_, ?_, ?_, ?_, ?_, ?_⟩ <;> decide

/-- C7.  The LLM cache key is the MD5 hex digest of the UTF-8 bytes of
`title + "|" + abstract`, hence deterministic and depending only on the
`(title, abstract)` pair: papers agreeing on those two fields get the same
key no matter how their other fields differ. -/
theorem llm_cache_key_content_addressed :
    (∀ t a : String, get_cache_key t a = md5Hex (strBytes (t ++ "|" ++ a))) ∧
    (∀ p q : Paper, p.title = q.title → p.abstract = q.abstract →
      get_cache_key p.title p.abstract = get_cache_key q.title q.abstract) := by
  constructor
  · intro t a
    rfl
  · intro p q ht ha
    rw [ht, ha]

/-- Sample paper: title "T", abstract "A", hosted at `u1` on ArXiv. -/
def paperTA1 : Paper :=
  { title := "T", authors := [], abstract := "A", url := "u1",
    published := 0, source := "ArXiv" }

/-- Sample paper: same title and abstract as `paperTA1` but a different
`url`, `source`, `authors` and `published`. -/
def paperTA2 : Paper :=
  { title := "T", authors := ["x"], abstract := "A", url := "u2",
    published := 5, source := "Nature" }

/-- Witness for C7: two concrete papers differing in `url` and `source` (and
other metadata) but agreeing on title and abstract have the same cache
key. -/
theorem llm_cache_key_content_addressed_witness :
    paperTA1.title = paperTA2.title ∧ paperTA1.abstract = paperTA2.abstract ∧
    get_cache_key paperTA1.title paperTA1.abstract =
      get_cache_key paperTA2.title paperTA2.abstract :=
  ⟨rfl, rfl, llm_cache_key_content_addressed.2 paperTA1 paperTA2 rfl rfl⟩

/-! ### Claim theorem: cache eviction (C8) -/

/-- Definition taken from the claim's words: a cache file is due for
eviction exactly when it is parsable, carries a parsable `cached_at`
timestamp, and that timestamp is older than the cutoff. -/
def isExpired (cutoff : Int) : CacheFile → Bool
  | .entry _ (some (.valid t)) => decide (t < cutoff)
  | _ => false

theorem cleanStep_foldl (cutoff : Int) :
    ∀ (cache : List (String × CacheFile)) (a1 : List (String × CacheFile))
      (a2 : Nat),
    cache.foldl (cleanStep cutoff) (a1, a2) =
      (a1 ++ cache.filter (fun kf => !isExpired cutoff kf.2),
       a2 + cache.countP (fun kf => isExpired cutoff kf.2)) := by
  intro cache
  induction cache with
  | nil => intro a1 a2; simp
  | cons kf rest ih =>
    intro a1 a2
    rcases kf with ⟨k, f⟩
    rcases f with ⟨d, ts⟩ | _
    · rcases ts with _ | tv
      · rw [List.foldl_cons, cleanStep, ih]
        simp [isExpired, List.filter_cons, List.countP_cons]
      · rcases tv with t | s
        · by_cases ht : t < cutoff
          · rw [List.foldl_cons, cleanStep]
            simp only [ht, if_pos]
            rw [ih]
            have he : isExpired cutoff (CacheFile.entry d (some (.valid t))) =
                true := by simp [isExpired, ht]
            simp [List.filter_cons, List.countP_cons, he]
            omega
          · rw [List.foldl_cons, cleanStep]
            simp only [ht, if_neg, not_false_eq_true]
            rw [ih]
            have he : isExpired cutoff (CacheFile.entry d (some (.valid t))) =
                false := by simp [isExpired, ht]
            simp [List.filter_cons, List.countP_cons, he]
        · rw [List.foldl_cons, cleanStep, ih]
          simp [isExpired, List.filter_cons, List.countP_cons]
    · rw [List.foldl_cons, cleanStep, ih]
      simp [isExpired, List.filter_cons, List.countP_cons]

/-- C8.  The eviction sweep removes exactly the cache entries whose
`cached_at` timestamp is older than `now - days` days and returns the number
removed; parsable entries that are not yet old, entries missing a timestamp,
entries with an unparsable timestamp, and unparsable files are all kept, and
none of them aborts the sweep. -/
theorem clean_old_cache_spec (now days : Int)
    (cache : List (String × CacheFile)) :
    clean_old_cache now days cache =
      (cache.filter (fun kf => !isExpired (now - days * 86400) kf.2),
       cache.countP (fun kf => isExpired (now - days * 86400) kf.2)) := by
  rw [clean_old_cache, cleanStep_foldl]
  simp

/-! ### Claim theorem: relevance grouping (C4) -/

theorem groupByThresholds_go (hi lo : Int) :
    ∀ (papers : List Paper) (g : RelevanceGroups),
    papers.foldl
      (fun g p =>
        if p.relevance_score ≥ hi then { g with high := g.high ++ [p] }
        else if p.relevance_score ≥ lo then
          { g with medium := g.medium ++ [p] }
        else { g with low := g.low ++ [p] }) g =
    ⟨g.high ++ papers.filter (fun p => decide (hi ≤ p.relevance_score)),
     g.medium ++ papers.filter
       (fun p => !decide (hi ≤ p.relevance_score) &&
         decide (lo ≤ p.relevance_score)),
     g.low ++ papers.filter
       (fun p => !decide (hi ≤ p.relevance_score) &&
         !decide (lo ≤ p.relevance_score))⟩ := by
  intro papers
  induction papers with
  | nil => intro g; simp
  | cons p rest ih =>
    intro g
    rw [List.foldl_cons]
    by_cases h1 : hi ≤ p.relevance_score
    · rw [if_pos h1, ih]
      simp [List.filter_cons, h1]
    · rw [if_neg h1]
      by_cases h2 : lo ≤ p.relevance_score
      · rw [if_pos h2, ih]
        simp [List.filter_cons, h1, h2]
      · rw [if_neg h2, ih]
        simp [List.filter_cons, h1, h2]

theorem three_filter_length (b1 b2 b3 : Paper → Bool)
    (h : ∀ p, (b1 p).toNat + (b2 p).toNat + (b3 p).toNat = 1) :
    ∀ papers : List Paper,
    (papers.filter b1).length + (papers.filter b2).length +
      (papers.filter b3).length = papers.length := by
  intro papers
  induction papers with
  | nil => simp
  | cons p rest ih =>
    have hp := h p
    cases hb1 : b1 p <;> cases hb2 : b2 p <;> cases hb3 : b3 p <;>
      rw [hb1, hb2, hb3] at hp <;>
      simp only [Bool.toNat_true, Bool.toNat_false] at hp <;>
      simp [List.filter_cons, hb1, hb2, hb3] <;> omega

/-- C4.  Both grouping operations partition their input exhaustively by
`relevance_score` alone, preserving input order inside each tier: keyword
mode sends `score >= 20` to high, `10 <= score < 20` to medium and
`score < 10` to low; LLM mode sends `score >= 75` to high,
`50 <= score < 75` to medium and `score < 50` to low; in both modes the
three tiers together hold exactly the input papers. -/
theorem group_by_relevance_partition (papers : List Paper) :
    (group_papers_by_relevance papers).high =
      papers.filter (fun p => decide (20 ≤ p.relevance_score)) ∧
    (group_papers_by_relevance papers).medium =
      papers.filter
        (fun p => decide (10 ≤ p.relevance_score ∧ p.relevance_score < 20)) ∧
    (group_papers_by_relevance papers).low =
      papers.filter (fun p => decide (p.relevance_score < 10)) ∧
    (group_papers_by_relevance papers).high.length +
      (group_papers_by_relevance papers).medium.length +
      (group_papers_by_relevance papers).low.length = papers.length ∧
    (llm_group_papers_by_relevance papers).high =
      papers.filter (fun p => decide (75 ≤ p.relevance_score)) ∧
    (llm_group_papers_by_relevance papers).medium =
      papers.filter
        (fun p => decide (50 ≤ p.relevance_score ∧ p.relevance_score < 75)) ∧
    (llm_group_papers_by_relevance papers).low =
      papers.filter (fun p => decide (p.relevance_score < 50)) ∧
    (llm_group_papers_by_relevance papers).high.length +
      (llm_group_papers_by_relevance papers).medium.length +
      (llm_group_papers_by_relevance papers).low.length = papers.length := by
  have hkw : group_papers_by_relevance papers =
      ⟨papers.filter (fun p => decide (20 ≤ p.relevance_score)),
       papers.filter (fun p => !decide (20 ≤ p.relevance_score) &&
         decide (10 ≤ p.relevance_score)),
       papers.filter (fun p => !decide (20 ≤ p.relevance_score) &&
         !decide (10 ≤ p.relevance_score))⟩ := by
    rw [group_papers_by_relevance, groupByThresholds, groupByThresholds_go]
    simp
  have hllm : llm_group_papers_by_relevance papers =
      ⟨papers.filter (fun p => decide (75 ≤ p.relevance_score)),
       papers.filter (fun p => !decide (75 ≤ p.relevance_score) &&
         decide (50 ≤ p.relevance_score)),
       papers.filter (fun p => !decide (75 ≤ p.relevance_score) &&
         !decide (50 ≤ p.relevance_score))⟩ := by
    rw [llm_group_papers_by_relevance, groupByThresholds, groupByThresholds_go]
    simp
  have hmed20 : ∀ p : Paper,
      (!decide (20 ≤ p.relevance_score) && decide (10 ≤ p.relevance_score)) =
        decide (10 ≤ p.relevance_score ∧ p.relevance_score < 20) := by
    intro p
    by_cases h1 : (20:Int) ≤ p.relevance_score <;>
      by_cases h2 : (10:Int) ≤ p.relevance_score <;> simp [h1, h2] <;> omega
  have hlow10 : ∀ p : Paper,
      (!decide (20 ≤ p.relevance_score) && !decide (10 ≤ p.relevance_score)) =
        decide (p.relevance_score < 10) := by
    intro p
    by_cases h1 : (20:Int) ≤ p.relevance_score <;>
      by_cases h2 : (10:Int) ≤ p.relevance_score <;> simp [h1, h2] <;> omega
  have hmed50 : ∀ p : Paper,
      (!decide (75 ≤ p.relevance_score) && decide (50 ≤ p.relevance_score)) =
        decide (50 ≤ p.relevance_score ∧ p.relevance_score < 75) := by
    intro p
    by_cases h1 : (75:Int) ≤ p.relevance_score <;>
      by_cases h2 : (50:Int) ≤ p.relevance_score <;> simp [h1, h2] <;> omega
  have hlow50 : ∀ p : Paper,
      (!decide (75 ≤ p.relevance_score) && !decide (50 ≤ p.relevance_score)) =
        decide (p.relevance_score < 50) := by
    intro p
    by_cases h1 : (75:Int) ≤ p.relevance_score <;>
      by_cases h2 : (50:Int) ≤ p.relevance_score <;> simp [h1, h2] <;> omega
  refine ⟨?_, ?_, ?_, ?_, ?_, ?_, ?_, ?_⟩
  · rw [hkw]
  · rw [hkw]
    exact List.filter_congr (fun p _ => hmed20 p)
  · rw [hkw]
    exact List.filter_congr (fun p _ => hlow10 p)
  · rw [hkw]
    exact three_filter_length _ _ _
      (by
        intro p
        by_cases h1 : (20:Int) ≤ p.relevance_score <;>
          by_cases h2 : (10:Int) ≤ p.relevance_score <;>
          simp [h1, h2] <;> omega) papers
  · rw [hllm]
  · rw [hllm]
    exact List.filter_congr (fun p _ => hmed50 p)
  · rw [hllm]
    exact List.filter_congr (fun p _ => hlow50 p)
  · rw [hllm]
    exact three_filter_length _ _ _
      (by
        intro p
        by_cases h1 : (75:Int) ≤ p.relevance_score <;>
          by_cases h2 : (50:Int) ≤ p.relevance_score <;>
          simp [h1, h2] <;> omega) papers

/-! ### Stable-sort lemmas for `sortByScoreDesc` -/

theorem filter_orderedInsert_neg (q : Paper → Bool) (a : Paper)
    (hq : q a = false) :
    ∀ l : List Paper, (l.orderedInsert scoreGE a).filter q = l.filter q := by
  intro l
  induction l with
  | nil => simp [List.orderedInsert, List.filter, hq]
  | cons b l ih =>
    rw [List.orderedInsert]
    by_cases hr : scoreGE a b
    · rw [if_pos hr]
      simp [List.filter_cons, hq]
    · rw [if_neg hr]
      simp only [List.filter_cons, ih]

theorem filter_orderedInsert_pos (s : Int) (a : Paper)
    (ha : a.relevance_score = s) :
    ∀ l : List Paper, l.Sorted scoreGE →
    (l.orderedInsert scoreGE a).filter (fun p => p.relevance_score == s) =
      a :: l.filter (fun p => p.relevance_score == s) := by
  intro l
  induction l with
  | nil => simp [List.orderedInsert, List.filter, ha]
  | cons b l ih =>
    intro hsort
    rw [List.orderedInsert]
    by_cases hr : scoreGE a b
    · rw [if_pos hr]
      simp [List.filter_cons, ha]
    · rw [if_neg hr]
      have hb : b.relevance_score ≠ s := by
        intro hb
        exact hr (by rw [scoreGE, hb, ha])
      have hbq : (b.relevance_score == s) = false := by simpa using hb
      simp only [List.filter_cons, hbq, cond_false]
      rw [ih (List.sorted_cons.mp hsort).2]
      simp [hbq]

theorem filter_score_sortByScoreDesc (s : Int) :
    ∀ l : List Paper,
    (sortByScoreDesc l).filter (fun p => p.relevance_score == s) =
      l.filter (fun p => p.relevance_score == s) := by
  intro l
  induction l with
  | nil => rfl
  | cons a l ih =>
    rw [sortByScoreDesc, List.insertionSort]
    by_cases hq : a.relevance_score = s
    · rw [filter_orderedInsert_pos s a hq _
        (List.sorted_insertionSort scoreGE l)]
      rw [sortByScoreDesc] at ih
      rw [ih]
      simp [List.filter_cons, hq]
    · have hq' : (a.relevance_score == s) = false := by simpa using hq
      rw [filter_orderedInsert_neg _ a hq']
      rw [sortByScoreDesc] at ih
      rw [ih]
      simp [List.filter_cons, hq']

/-! ### Loop characterization of `filter_papers_run` -/

theorem filter_run_go (pf : PaperFilter) (min_score : Int) :
    ∀ (papers : List Paper) (a1 a2 : List Paper),
    papers.foldl
      (fun acc p =>
        if min_score ≤ (score_paper pf p).1 then
          (acc.1 ++ [applyScore pf p], acc.2 ++ [applyScore pf p])
        else
          (acc.1 ++ [p], acc.2)) (a1, a2) =
    (a1 ++ papers.map
       (fun p => if min_score ≤ (score_paper pf p).1 then applyScore pf p
         else p),
     a2 ++ (papers.filter
       (fun p => decide (min_score ≤ (score_paper pf p).1))).map
         (applyScore pf)) := by
  intro papers
  induction papers with
  | nil => intro a1 a2; simp
  | cons p rest ih =>
    intro a1 a2
    rw [List.foldl_cons]
    by_cases h : min_score ≤ (score_paper pf p).1
    · rw [if_pos h, ih]
      simp [List.filter_cons, h]
    · rw [if_neg h, ih]
      simp [List.filter_cons, h]

theorem filter_papers_run_eq (pf : PaperFilter) (papers : List Paper)
    (min_score : Int) :
    filter_papers_run pf papers min_score =
    (papers.map
       (fun p => if min_score ≤ (score_paper pf p).1 then applyScore pf p
         else p),
     sortByScoreDesc ((papers.filter
       (fun p => decide (min_score ≤ (score_paper pf p).1))).map
         (applyScore pf))) := by
  rw [filter_papers_run, filter_run_go]
  simp

/-- C3.  `filter_papers` returns exactly the input papers whose keyword
score reaches `min_score`, each with `relevance_score` and
`matched_keywords` set to its computed score and matched keywords
(`applyScore`), as a permutation sorted by descending `relevance_score` in
which papers of equal score keep their relative input order (the filtered
subsequence at each score value is unchanged). -/
theorem filter_papers_spec (pf : PaperFilter) (papers : List Paper)
    (min_score : Int) :
    List.Perm (filter_papers pf papers min_score)
      ((papers.filter
        (fun p => decide (min_score ≤ (score_paper pf p).1))).map
          (applyScore pf)) ∧
    (filter_papers pf papers min_score).Pairwise
      (fun a b => b.relevance_score ≤ a.relevance_score) ∧
    ∀ s : Int,
      (filter_papers pf papers min_score).filter
          (fun p => p.relevance_score == s) =
        ((papers.filter
          (fun p => decide (min_score ≤ (score_paper pf p).1))).map
            (applyScore pf)).filter (fun p => p.relevance_score == s) := by
  have hres : filter_papers pf papers min_score =
      sortByScoreDesc ((papers.filter
        (fun p => decide (min_score ≤ (score_paper pf p).1))).map
          (applyScore pf)) := by
    rw [filter_papers, filter_papers_run_eq]
  refine ⟨?_, ?_, ?_⟩
  · rw [hres]
    exact List.perm_insertionSort scoreGE _
  · rw [hres]
    exact List.sorted_insertionSort scoreGE _
  · intro s
    rw [hres]
    exact filter_score_sortByScoreDesc s _

/-! ### Claim theorem: frame property of keyword filtering (C10) -/

/-- C10.  A paper whose keyword score is below `min_score` is left completely
unchanged by `filter_papers`: the caller's list keeps its length, and at
every index holding a below-threshold paper it still holds the original
record with all fields intact. -/
theorem filter_papers_frame (pf : PaperFilter) (papers : List Paper)
    (min_score : Int) (i : Nat) (hi : i < papers.length)
    (hlow : (score_paper pf (papers.get ⟨i, hi⟩)).1 < min_score) :
    (filter_papers_run pf papers min_score).1.length = papers.length ∧
    (filter_papers_run pf papers min_score).1[i]? =
      some (papers.get ⟨i, hi⟩) := by
  have h1 : (filter_papers_run pf papers min_score).1 =
      papers.map
        (fun p => if min_score ≤ (score_paper pf p).1 then applyScore pf p
          else p) := by
    rw [filter_papers_run_eq]
  refine ⟨by rw [h1, List.length_map], ?_⟩
  rw [h1, List.getElem?_map, List.getElem?_eq_getElem hi]
  rw [List.get_eq_getElem] at hlow
  simp [not_le.mpr hlow]

/-- Witness for C10: a filter for keyword "ai" scores the "big data
research" paper 0, so filtering with `min_score = 1` leaves it untouched in
the caller's list. -/
theorem filter_papers_frame_witness :
    (score_paper (mkPaperFilter ["ai"] none)
        ([paperBigData].get ⟨0, by decide⟩)).1 < 1 ∧
    (filter_papers_run (mkPaperFilter ["ai"] none) [paperBigData] 1).1[0]? =
      some ([paperBigData].get ⟨0, by decide⟩) :=
  ⟨by decide,
   (filter_papers_frame (mkPaperFilter ["ai"] none) [paperBigData] 1 0
     (by decide) (by decide)).2⟩

/-! ### Dict-construction invariants for `_count_keyword_matches` (C1) -/

/-- The dict built by `_count_keyword_matches` for an arbitrary per-keyword
count function `g`. -/
def buildDict (g : String → Nat) (kws : List String) : List (String × Nat) :=
  kws.foldl (fun m kw => if g kw > 0 then dictInsert m kw (g kw) else m) []

/-- Number of whole-word occurrences of `kw` in the lower-cased searchable
text (title, a space, then abstract) of a paper — the quantity the spec's
score formula is stated in terms of. -/
def keywordOccurrences (p : Paper) (kw : String) : Nat :=
  countOcc (normalizeText (p.title ++ " " ++ p.abstract)).data kw.data

theorem countKeywordMatches_eq_buildDict (p : Paper) (kws : List String) :
    countKeywordMatches (p.title ++ " " ++ p.abstract) kws =
      buildDict (keywordOccurrences p) kws := rfl

theorem dictInsert_of_mem (g : String → Nat) :
    ∀ (m : List (String × Nat)) (k : String),
    (∀ e ∈ m, e.2 = g e.1) → k ∈ m.map Prod.fst → dictInsert m k (g k) = m := by
  intro m
  induction m with
  | nil => intro k _ hk; simp at hk
  | cons e rest ih =>
    intro k hcons hk
    rw [dictInsert]
    by_cases he : (e.1 == k) = true
    · rw [if_pos he]
      have h1 : e.1 = k := by simpa using he
      have h2 : e.2 = g e.1 := (hcons e (List.mem_cons_self e rest)).symm ▸
        (hcons e (List.mem_cons_self e rest))
      have : (k, g k) = e := by
        cases e with
        | mk a b => simp_all
      rw [this]
    · rw [if_neg he]
      have h1 : e.1 ≠ k := by simpa using he
      rw [List.map_cons] at hk
      rcases List.mem_cons.mp hk with h | h
      · exact absurd h.symm h1
      · rw [ih k (fun x hx => hcons x (List.mem_cons_of_mem e hx)) h]

theorem dictInsert_of_not_mem {α : Type} :
    ∀ (m : List (String × α)) (k : String) (v : α),
    k ∉ m.map Prod.fst → dictInsert m k v = m ++ [(k, v)] := by
  intro m
  induction m with
  | nil => intro k v _; rfl
  | cons e rest ih =>
    intro k v hk
    rw [dictInsert]
    have h1 : e.1 ≠ k := by
      intro h
      exact hk (by simp [h])
    rw [if_neg (by simpa using h1)]
    have hk2 : k ∉ rest.map Prod.fst := by
      intro h
      apply hk
      rw [List.map_cons]
      exact List.mem_cons_of_mem _ h
    rw [ih k v hk2]
    rfl

theorem buildDict_go (g : String → Nat) :
    ∀ (kws : List String) (m : List (String × Nat)),
    (∀ e ∈ m, e.2 = g e.1) → (m.map Prod.fst).Nodup →
    (∀ e ∈ kws.foldl
        (fun m kw => if g kw > 0 then dictInsert m kw (g kw) else m) m,
      e.2 = g e.1) ∧
    ((kws.foldl
        (fun m kw => if g kw > 0 then dictInsert m kw (g kw) else m) m).map
          Prod.fst).Nodup ∧
    (∀ k, k ∈ (kws.foldl
        (fun m kw => if g kw > 0 then dictInsert m kw (g kw) else m) m).map
          Prod.fst ↔
      k ∈ m.map Prod.fst ∨ (k ∈ kws ∧ 0 < g k)) := by
  intro kws
  induction kws with
  | nil =>
    intro m hcons hnodup
    exact ⟨hcons, hnodup, fun k => by simp⟩
  | cons kw rest ih =>
    intro m hcons hnodup
    rw [List.foldl_cons]
    by_cases hg : g kw > 0
    · rw [if_pos hg]
      by_cases hk : kw ∈ m.map Prod.fst
      · rw [dictInsert_of_mem g m kw hcons hk]
        obtain ⟨h1, h2, h3⟩ := ih m hcons hnodup
        refine ⟨h1, h2, fun k => ?_⟩
        rw [h3 k]
        constructor
        · rintro (h | h)
          · exact Or.inl h
          · exact Or.inr ⟨List.mem_cons_of_mem _ h.1, h.2⟩
        · rintro (h | ⟨hmem, hpos⟩)
          · exact Or.inl h
          · rcases List.mem_cons.mp hmem with rfl | h
            · exact Or.inl hk
            · exact Or.inr ⟨h, hpos⟩
      · rw [dictInsert_of_not_mem m kw (g kw) hk]
        have hcons' : ∀ e ∈ m ++ [(kw, g kw)], e.2 = g e.1 := by
          intro e he
          rcases List.mem_append.mp he with he | he
          · exact hcons e he
          · rw [List.mem_singleton.mp he]
        have hkeys : (m ++ [(kw, g kw)]).map Prod.fst =
            m.map Prod.fst ++ [kw] := by simp
        have hnodup' : ((m ++ [(kw, g kw)]).map Prod.fst).Nodup := by
          rw [hkeys]
          simp [List.nodup_append, hnodup, hk]
        obtain ⟨h1, h2, h3⟩ := ih (m ++ [(kw, g kw)]) hcons' hnodup'
        refine ⟨h1, h2, fun k => ?_⟩
        rw [h3 k, hkeys]
        simp only [List.mem_append, List.mem_cons, List.not_mem_nil, or_false]
        constructor
        · rintro ((h | rfl) | ⟨h, hp⟩)
          · exact Or.inl h
          · exact Or.inr ⟨Or.inl rfl, hg⟩
          · exact Or.inr ⟨Or.inr h, hp⟩
        · rintro (h | ⟨rfl | h, hp⟩)
          · exact Or.inl (Or.inl h)
          · exact Or.inl (Or.inr rfl)
          · exact Or.inr ⟨h, hp⟩
    · rw [if_neg hg]
      obtain ⟨h1, h2, h3⟩ := ih m hcons hnodup
      refine ⟨h1, h2, fun k => ?_⟩
      rw [h3 k]
      constructor
      · rintro (h | ⟨h, hp⟩)
        · exact Or.inl h
        · exact Or.inr ⟨List.mem_cons_of_mem _ h, hp⟩
      · rintro (h | ⟨h, hp⟩)
        · exact Or.inl h
        · rcases List.mem_cons.mp h with rfl | h
          · exact absurd hp hg
          · exact Or.inr ⟨h, hp⟩

theorem buildDict_spec (g : String → Nat) (kws : List String) :
    (∀ e ∈ buildDict g kws, e.2 = g e.1) ∧
    ((buildDict g kws).map Prod.fst).Nodup ∧
    (∀ k, k ∈ (buildDict g kws).map Prod.fst ↔ k ∈ kws ∧ 0 < g k) := by
  obtain ⟨h1, h2, h3⟩ := buildDict_go g kws [] (by simp) (by simp)
  exact ⟨h1, h2, fun k => by rw [buildDict, h3 k]; simp⟩

theorem buildDict_values_sum (g : String → Nat) (kws : List String) :
    ((buildDict g kws).map Prod.snd).sum = kws.toFinset.sum g := by
  obtain ⟨h1, h2, h3⟩ := buildDict_spec g kws
  have hvals : (buildDict g kws).map Prod.snd =
      ((buildDict g kws).map Prod.fst).map g := by
    rw [List.map_map]
    exact List.map_congr_left (fun e he => h1 e he)
  have hfs : ((buildDict g kws).map Prod.fst).toFinset =
      kws.toFinset.filter (fun k => 0 < g k) := by
    ext k
    simp only [List.mem_toFinset, Finset.mem_filter, h3 k]
  rw [hvals, ← List.sum_toFinset g h2, hfs]
  exact Finset.sum_filter_of_ne (fun x _ hx => Nat.pos_of_ne_zero hx)

theorem foldl_mul_sum (c : Int) :
    ∀ (l : List (String × Nat)) (init : Int),
    l.foldl (fun s e => s + (e.2 : Int) * c) init =
      init + ((l.map Prod.snd).sum : Int) * c := by
  intro l
  induction l with
  | nil => intro init; simp
  | cons e rest ih =>
    intro init
    rw [List.foldl_cons, ih]
    simp only [List.map_cons, List.sum_cons]
    push_cast
    ring

theorem count_eq_one_of_nodup_mem {l : List String} {a : String}
    (hn : l.Nodup) (h : a ∈ l) : l.count a = 1 := by
  induction l with
  | nil => cases h
  | cons b l ih =>
    rcases List.mem_cons.mp h with heq | hmem
    · subst heq
      rw [List.count_cons_self,
        List.count_eq_zero_of_not_mem (List.nodup_cons.mp hn).1]
    · have hab : a ≠ b :=
        fun heq => (List.nodup_cons.mp hn).1 (heq ▸ hmem)
      rw [List.count_cons_of_ne hab]
      exact ih (List.nodup_cons.mp hn).2 hmem

theorem score_paper_eq (pf : PaperFilter) (p : Paper) :
    score_paper pf p =
      ((buildDict (keywordOccurrences p) pf.secondary_keywords).foldl
          (fun s e => s + (e.2 : Int) * 3)
          ((buildDict (keywordOccurrences p) pf.primary_keywords).foldl
            (fun s e => s + (e.2 : Int) * 10) 0),
       (buildDict (keywordOccurrences p) pf.primary_keywords).map Prod.fst ++
         (buildDict (keywordOccurrences p) pf.secondary_keywords).map
           Prod.fst) := rfl

/-- C1 (amended).  The keyword score is always `10` times the total
whole-word occurrence count of the distinct primary keywords plus `3` times
that of the distinct secondary keywords; and, provided no keyword appears in
both lists, every keyword occurring at least once appears in
`matched_keywords` exactly once, regardless of its occurrence count. -/
theorem keyword_score_formula (pf : PaperFilter) (p : Paper) :
    (score_paper pf p).1 =
      10 * ((pf.primary_keywords.toFinset.sum (keywordOccurrences p) : ℕ) :
          Int) +
        3 * ((pf.secondary_keywords.toFinset.sum (keywordOccurrences p) :
          ℕ) : Int) ∧
    ((∀ kw ∈ pf.primary_keywords, kw ∉ pf.secondary_keywords) →
      ∀ kw, kw ∈ pf.primary_keywords ∨ kw ∈ pf.secondary_keywords →
        0 < keywordOccurrences p kw →
        (score_paper pf p).2.count kw = 1) := by
  constructor
  · rw [score_paper_eq]
    show (buildDict (keywordOccurrences p) pf.secondary_keywords).foldl
        (fun s e => s + (e.2 : Int) * 3)
        ((buildDict (keywordOccurrences p) pf.primary_keywords).foldl
          (fun s e => s + (e.2 : Int) * 10) 0) = _
    rw [foldl_mul_sum, foldl_mul_sum, buildDict_values_sum,
      buildDict_values_sum]
    ring
  · intro hdisj kw hmem hpos
    rw [score_paper_eq]
    show ((buildDict (keywordOccurrences p) pf.primary_keywords).map
        Prod.fst ++
      (buildDict (keywordOccurrences p) pf.secondary_keywords).map
        Prod.fst).count kw = 1
    rw [List.count_append]
    obtain ⟨_, hnd1, hmem1⟩ :=
      buildDict_spec (keywordOccurrences p) pf.primary_keywords
    obtain ⟨_, hnd2, hmem2⟩ :=
      buildDict_spec (keywordOccurrences p) pf.secondary_keywords
    rcases hmem with hp | hs
    · have h1 := (hmem1 kw).mpr ⟨hp, hpos⟩
      have h2 : kw ∉ (buildDict (keywordOccurrences p)
          pf.secondary_keywords).map Prod.fst := by
        intro h
        exact (hdisj kw hp) ((hmem2 kw).mp h).1
      rw [count_eq_one_of_nodup_mem hnd1 h1,
        List.count_eq_zero_of_not_mem h2]
    · have h2 := (hmem2 kw).mpr ⟨hs, hpos⟩
      have h1 : kw ∉ (buildDict (keywordOccurrences p)
          pf.primary_keywords).map Prod.fst := by
        intro h
        exact (hdisj kw ((hmem1 kw).mp h).1) hs
      rw [count_eq_one_of_nodup_mem hnd2 h2,
        List.count_eq_zero_of_not_mem h1]

/-- Counterexample to C1 as stated: with the keyword "data" configured both
as a primary and as a secondary keyword, a paper in which it occurs once
gets it twice in `matched_keywords` (score `10 + 3 = 13` is still the
claimed formula, but the exactly-once property fails). -/
theorem keyword_matched_twice_on_overlap :
    0 < keywordOccurrences paperBigData "data" ∧
    (score_paper ⟨["data"], ["data"]⟩ paperBigData).2 = ["data", "data"] ∧
    (score_paper ⟨["data"], ["data"]⟩ paperBigData).2.count "data" = 2 ∧
    (score_paper ⟨["data"], ["data"]⟩ paperBigData).1 = 13 := by
  refine ⟨?_, ?_, ?_, ?_⟩ <;> decide

/-- Sample paper whose searchable text holds "data" twice and "research"
once, the configuration of the spec's score-formula example. -/
def paperDataResearch : Paper :=
  { title := "", authors := [], abstract := "data research on data",
    url := "", published := 0, source := "" }

/-- Witness for C1: with primary keyword "data" (2 occurrences) and
secondary keyword "research" (1 occurrence), the score is
`2*10 + 1*3 = 23`, `matched_keywords` has length 2, and each matched
keyword appears exactly once. -/
theorem keyword_score_formula_witness :
    (score_paper ⟨["data"], ["research"]⟩ paperDataResearch).1 =
      10 * (((["data"] : List String).toFinset.sum
        (keywordOccurrences paperDataResearch) : ℕ) : Int) +
        3 * (((["research"] : List String).toFinset.sum
          (keywordOccurrences paperDataResearch) : ℕ) : Int) ∧
    (∀ kw ∈ (["data"] : List String), kw ∉ (["research"] : List String)) ∧
    (score_paper ⟨["data"], ["research"]⟩ paperDataResearch).2.count
      "data" = 1 ∧
    (score_paper ⟨["data"], ["research"]⟩ paperDataResearch).1 = 23 ∧
    (score_paper ⟨["data"], ["research"]⟩ paperDataResearch).2.length = 2 :=
  ⟨(keyword_score_formula ⟨["data"], ["research"]⟩ paperDataResearch).1,
   by decide,
   (keyword_score_formula ⟨["data"], ["research"]⟩ paperDataResearch).2
     (by decide) "data" (Or.inl (by decide)) (by decide),
   by decide, by decide⟩

/-! ### Claim theorems: populated scoring fields (C9) -/

theorem score_zero_of_no_match (pf : PaperFilter) (q : Paper)
    (h : (score_paper pf q).2 = []) : (score_paper pf q).1 = 0 := by
  rw [score_paper_eq] at h ⊢
  simp only [List.append_eq_nil, List.map_eq_nil_iff] at h
  show (buildDict (keywordOccurrences q) pf.secondary_keywords).foldl
      (fun s e => s + (e.2 : Int) * 3)
      ((buildDict (keywordOccurrences q) pf.primary_keywords).foldl
        (fun s e => s + (e.2 : Int) * 10) 0) = 0
  rw [h.1, h.2]
  rfl

theorem llm_batch_go_prop (oracle : String → Except String Decision)
    (cfg : ScorerConfig) (now : Int) (min_score : Int) :
    ∀ (papers : List Paper) (st : ScorerState) (acc : List Paper)
      (out : List Paper × ScorerState),
    (∀ p ∈ acc, min_score ≤ p.relevance_score ∧
      ∃ m, p.llm_metadata = some m ∧ p.matched_keywords = m.topicsD) →
    llm_score_batch_go oracle cfg now min_score papers st acc = .ok out →
    ∀ p ∈ out.1, min_score ≤ p.relevance_score ∧
      ∃ m, p.llm_metadata = some m ∧ p.matched_keywords = m.topicsD := by
  intro papers
  induction papers with
  | nil =>
    intro st acc out hacc hout
    rw [llm_score_batch_go] at hout
    cases hout
    exact hacc
  | cons q papers ih =>
    intro st acc out hacc hout
    rw [llm_score_batch_go] at hout
    cases hsc : llm_score_paper oracle cfg now st q with
    | error e =>
      rw [hsc] at hout
      cases hout
    | ok r =>
      rw [hsc] at hout
      obtain ⟨⟨rel, score, meta⟩, st'⟩ := r
      simp only at hout
      by_cases hmin : min_score ≤ score
      · rw [if_pos hmin] at hout
        refine ih st' _ out ?_ hout
        intro p hp
        rcases List.mem_append.mp hp with hp | hp
        · exact hacc p hp
        · rw [List.mem_singleton.mp hp]
          exact ⟨hmin, meta, rfl, rfl⟩
      · rw [if_neg hmin] at hout
        exact ih st' acc out hacc hout

/-- C9 (amended).  In keyword mode with `min_score >= 1`, every paper in the
filtered output has a positive `relevance_score` and a non-empty
`matched_keywords`.  In LLM mode, every paper in the batch output has
`relevance_score >= min_score` and its `llm_metadata` and
`matched_keywords` set from the returned decision — but `matched_keywords`
equals the decision's topics list, which the code does not require to be
non-empty. -/
theorem scored_output_populated (pf : PaperFilter) (papers : List Paper)
    (min_score : Int) (oracle : String → Except String Decision)
    (cfg : ScorerConfig) (now : Int) (st : ScorerState)
    (lpapers : List Paper) (lmin : Int) (out : List Paper × ScorerState) :
    (1 ≤ min_score → ∀ p ∈ filter_papers pf papers min_score,
      0 < p.relevance_score ∧ p.matched_keywords ≠ []) ∧
    (llm_score_papers_batch oracle cfg now st lpapers lmin = .ok out →
      ∀ p ∈ out.1, lmin ≤ p.relevance_score ∧
        ∃ m, p.llm_metadata = some m ∧ p.matched_keywords = m.topicsD) := by
  constructor
  · intro hmin p hp
    have hres : filter_papers pf papers min_score =
        sortByScoreDesc ((papers.filter
          (fun p => decide (min_score ≤ (score_paper pf p).1))).map
            (applyScore pf)) := by
      rw [filter_papers, filter_papers_run_eq]
    rw [hres, sortByScoreDesc] at hp
    have hp' := (List.mem_insertionSort scoreGE).mp hp
    rcases List.mem_map.mp hp' with ⟨q, hq, rfl⟩
    rcases List.mem_filter.mp hq with ⟨_, hqs⟩
    have hscore : min_score ≤ (score_paper pf q).1 := of_decide_eq_true hqs
    constructor
    · show 0 < (applyScore pf q).relevance_score
      simp only [applyScore]
      omega
    · show (applyScore pf q).matched_keywords ≠ []
      simp only [applyScore]
      intro hnil
      have := score_zero_of_no_match pf q hnil
      omega
  · intro hok p hp
    rw [llm_score_papers_batch] at hok
    cases hgo : llm_score_batch_go oracle cfg now lmin lpapers st [] with
    | error e =>
      rw [hgo] at hok
      cases hok
    | ok r =>
      rw [hgo] at hok
      obtain ⟨acc, st'⟩ := r
      simp only at hok
      cases hok
      have hp' := (List.mem_insertionSort scoreGE).mp hp
      exact llm_batch_go_prop oracle cfg now lmin lpapers st [] (acc, st')
        (by intro x hx; cases hx) hgo p hp'

/-- Scorer configuration used by the concrete LLM-mode examples. -/
def cfgDS : ScorerConfig :=
  { research_interests := "ri", provider := "dashscope" }

/-- Decision that is relevant with score 80 and an empty topics list. -/
def decisionTopicless : Decision :=
  { relevant := true, score := 80, confidence := "high", reasoning := "r",
    topics := some [] }

/-- Oracle that always returns `decisionTopicless`. -/
def oracleTopicless : String → Except String Decision :=
  fun _ => .ok decisionTopicless

/-- Counterexample to C9 as stated: an LLM decision with score 80 and empty
`topics` puts the paper in the batch output with empty `matched_keywords`;
and in keyword mode with `min_score = 0` a zero-scoring paper is retained
with `relevance_score = 0` and empty `matched_keywords`. -/
theorem scored_output_empty_keywords_cex :
    (llm_score_papers_batch oracleTopicless cfgDS 0 {} [paperTA1]
        50).toOption.map (fun out => out.1.map Paper.matched_keywords) =
      some [[]] ∧
    (llm_score_papers_batch oracleTopicless cfgDS 0 {} [paperTA1]
        50).toOption.map (fun out => out.1.length) = some 1 ∧
    filter_papers (mkPaperFilter ["ai"] none) [paperTA1] 0 = [paperTA1] ∧
    paperTA1.relevance_score = 0 ∧ paperTA1.matched_keywords = [] := by
  refine ⟨?_, ?_, ?_, ?_, ?_⟩ <;> decide

/-- Witness for C9: the "big data research" paper filtered with primary
keyword "data" at `min_score = 1` is in the output with positive score and
non-empty `matched_keywords`. -/
theorem scored_output_populated_witness :
    applyScore (mkPaperFilter ["data"] none) paperBigData ∈
      filter_papers (mkPaperFilter ["data"] none) [paperBigData] 1 ∧
    (0 < (applyScore (mkPaperFilter ["data"] none)
        paperBigData).relevance_score ∧
      (applyScore (mkPaperFilter ["data"] none)
        paperBigData).matched_keywords ≠ []) :=
  ⟨by decide,
   (scored_output_populated (mkPaperFilter ["data"] none) [paperBigData] 1
       oracleTopicless cfgDS 0 {} [] 50 ([], {})).1 (by decide)
     (applyScore (mkPaperFilter ["data"] none) paperBigData) (by decide)⟩

/-! ### Claim theorem: cache idempotence (C5) -/

/-- C5.  After a cache-miss scoring of paper `p` whose provider call and
parse succeed with decision `d`, the decision sits in the cache under the
key of `(title, abstract)`; scoring any paper `q` with the same title and
abstract afterwards is a cache hit: it returns the identical decision fields
with the `cached` flag true, and makes no further external call
(`api_calls` is unchanged by the second scoring). -/
theorem llm_cache_idempotent (oracle : String → Except String Decision)
    (cfg : ScorerConfig) (now now2 : Int) (st : ScorerState) (p q : Paper)
    (d : Decision)
    (ht : q.title = p.title) (ha : q.abstract = p.abstract)
    (hmiss : dictLookup st.cache (get_cache_key p.title p.abstract) = none)
    (hcall : oracle (create_prompt cfg p.title p.abstract p.source) = .ok d)
    (hprov : cfg.provider = "dashscope" ∨ cfg.provider = "azure") :
    ∃ st1 : ScorerState,
      llm_score_paper oracle cfg now st p =
        .ok ((d.relevant, d.score,
          .ok d.confidence d.reasoning (d.topics.getD []) false), st1) ∧
      load_from_cache st1 (get_cache_key q.title q.abstract) =
        (some (.entry d (some (.valid now))),
          { st1 with cache_hits := st1.cache_hits + 1 }) ∧
      llm_score_paper oracle cfg now2 st1 q =
        .ok ((d.relevant, d.score,
          .ok d.confidence d.reasoning (d.topics.getD []) true),
          { st1 with cache_hits := st1.cache_hits + 1 }) ∧
      ({ st1 with cache_hits := st1.cache_hits + 1 }).api_calls =
        st1.api_calls := by
  have hb : (cfg.provider == "dashscope" || cfg.provider == "azure") =
      true := by
    rcases hprov with h | h <;> simp [h]
  refine ⟨⟨dictInsert st.cache (get_cache_key p.title p.abstract)
      (.entry d (some (.valid now))),
    st.cache_hits, st.cache_misses + 1, st.api_calls + 1⟩, ?_, ?_, ?_, rfl⟩
  · simp only [llm_score_paper, load_from_cache, hmiss, hb, if_true,
      save_to_cache, hcall]
  · simp only [load_from_cache, ht, ha, dictLookup_dictInsert_self]
  · simp only [llm_score_paper, load_from_cache, ht, ha,
      dictLookup_dictInsert_self]

/-- Decision used by the concrete cache-idempotence run. -/
def decisionGood : Decision :=
  { relevant := true, score := 90, confidence := "high", reasoning := "ok",
    topics := some ["t"] }

/-- Witness for C5: scoring `paperTA1` against an always-succeeding oracle
from an empty cache, then scoring `paperTA2` (same title and abstract,
different url/source), hits the cache, returns the identical decision
tagged `cached = true`, and leaves `api_calls` unchanged. -/
theorem llm_cache_idempotent_witness :
    paperTA2.title = paperTA1.title ∧
    dictLookup ({} : ScorerState).cache
      (get_cache_key paperTA1.title paperTA1.abstract) = none ∧
    (∃ st1 : ScorerState,
      llm_score_paper (fun _ => .ok decisionGood) cfgDS 0 {} paperTA1 =
        .ok ((decisionGood.relevant, decisionGood.score,
          .ok decisionGood.confidence decisionGood.reasoning
            (decisionGood.topics.getD []) false), st1) ∧
      load_from_cache st1 (get_cache_key paperTA2.title paperTA2.abstract) =
        (some (.entry decisionGood (some (.valid 0))),
          { st1 with cache_hits := st1.cache_hits + 1 }) ∧
      llm_score_paper (fun _ => .ok decisionGood) cfgDS 1 st1 paperTA2 =
        .ok ((decisionGood.relevant, decisionGood.score,
          .ok decisionGood.confidence decisionGood.reasoning
            (decisionGood.topics.getD []) true),
          { st1 with cache_hits := st1.cache_hits + 1 }) ∧
      ({ st1 with cache_hits := st1.cache_hits + 1 }).api_calls =
        st1.api_calls) :=
  ⟨rfl, rfl,
   llm_cache_idempotent (fun _ => .ok decisionGood) cfgDS 0 1 {} paperTA1
     paperTA2 decisionGood rfl rfl rfl rfl (Or.inl rfl)⟩

/-! ### Claim theorem: failure isolation (C6) -/

theorem noCorrupt_dictInsert {cache : List (String × CacheFile)}
    {k : String} {d : Decision} {ts : Option TimeVal}
    (h : NoCorrupt cache) :
    NoCorrupt (dictInsert cache k (.entry d ts)) := by
  intro e he
  rcases mem_dictInsert he with he | he
  · exact h e he
  · rw [he]
    simp

theorem llm_score_paper_ok_of_noCorrupt
    (oracle : String → Except String Decision) (cfg : ScorerConfig)
    (now : Int) (st : ScorerState) (p : Paper)
    (h : NoCorrupt st.cache) :
    ∃ r st', llm_score_paper oracle cfg now st p = .ok (r, st') ∧
      NoCorrupt st'.cache := by
  rw [llm_score_paper]
  cases hl : dictLookup st.cache (get_cache_key p.title p.abstract) with
  | none =>
    rw [load_from_cache, hl]
    simp only
    by_cases hb : (cfg.provider == "dashscope" || cfg.provider == "azure") =
        true
    · rw [if_pos hb]
      cases ho : oracle (create_prompt cfg p.title p.abstract p.source) with
      | ok d =>
        refine ⟨_, _, rfl, ?_⟩
        simp only [save_to_cache]
        exact noCorrupt_dictInsert h
      | error e => exact ⟨_, _, rfl, h⟩
    · rw [if_neg hb]
      exact ⟨_, _, rfl, h⟩
  | some f =>
    rw [load_from_cache, hl]
    cases f with
    | entry d ts => exact ⟨_, _, rfl, h⟩
    | corrupt => exact absurd rfl (h _ (dictLookup_mem hl))

theorem llm_batch_go_ok (oracle : String → Except String Decision)
    (cfg : ScorerConfig) (now : Int) (min_score : Int) :
    ∀ (papers : List Paper) (st : ScorerState) (acc : List Paper),
    NoCorrupt st.cache →
    ∃ out, llm_score_batch_go oracle cfg now min_score papers st acc =
      .ok out := by
  intro papers
  induction papers with
  | nil =>
    intro st acc _
    exact ⟨(acc, st), rfl⟩
  | cons q papers ih =>
    intro st acc h
    obtain ⟨⟨rel, score, meta⟩, st', hs, h'⟩ :=
      llm_score_paper_ok_of_noCorrupt oracle cfg now st q h
    rw [llm_score_batch_go, hs]
    simp only
    by_cases hmin : min_score ≤ score
    · rw [if_pos hmin]
      exact ih st' _ h'
    · rw [if_neg hmin]
      exact ih st' acc h'

/-- C6.  Any failure of the scoring path is absorbed by `score_paper`: if
the external call (or its parse) fails on a cache miss, or the configured
provider is unknown, the paper is scored `relevant = False, score = 0` with
an error message and `cached = False`, and nothing is raised; consequently
a batch over a cache with no corrupt files always completes and returns a
result rather than raising. -/
theorem llm_failure_isolation :
    (∀ (oracle : String → Except String Decision) (cfg : ScorerConfig)
        (now : Int) (st : ScorerState) (p : Paper) (e : String),
      dictLookup st.cache (get_cache_key p.title p.abstract) = none →
      (cfg.provider = "dashscope" ∨ cfg.provider = "azure") →
      oracle (create_prompt cfg p.title p.abstract p.source) = .error e →
      llm_score_paper oracle cfg now st p =
        .ok ((false, 0, .err e false),
          { st with cache_misses := st.cache_misses + 1,
                    api_calls := st.api_calls + 1 })) ∧
    (∀ (oracle : String → Except String Decision) (cfg : ScorerConfig)
        (now : Int) (st : ScorerState) (p : Paper),
      dictLookup st.cache (get_cache_key p.title p.abstract) = none →
      cfg.provider ≠ "dashscope" → cfg.provider ≠ "azure" →
      llm_score_paper oracle cfg now st p =
        .ok ((false, 0, .err ("Unknown provider: " ++ cfg.provider) false),
          { st with cache_misses := st.cache_misses + 1,
                    api_calls := st.api_calls + 1 })) ∧
    (∀ (oracle : String → Except String Decision) (cfg : ScorerConfig)
        (now : Int) (st : ScorerState) (papers : List Paper)
        (min_score : Int),
      NoCorrupt st.cache →
      ∃ out, llm_score_papers_batch oracle cfg now st papers min_score =
        .ok out) := by
  refine ⟨?_, ?_, ?_⟩
  · intro oracle cfg now st p e hmiss hprov hfail
    have hb : (cfg.provider == "dashscope" || cfg.provider == "azure") =
        true := by
      rcases hprov with h | h <;> simp [h]
    simp only [llm_score_paper, load_from_cache, hmiss, hb, if_true, hfail]
  · intro oracle cfg now st p hmiss h1 h2
    have hb : (cfg.provider == "dashscope" || cfg.provider == "azure") =
        false := by
      simp [h1, h2]
    simp only [llm_score_paper, load_from_cache, hmiss, hb, Bool.false_eq_true,
      if_false]
  · intro oracle cfg now st papers min_score h
    obtain ⟨⟨acc, st'⟩, hgo⟩ :=
      llm_batch_go_ok oracle cfg now min_score papers st [] h
    exact ⟨(sortByScoreDesc acc, st'),
      by rw [llm_score_papers_batch, hgo]⟩

/-- Concrete paper used in the failure-isolation batch, parameterized by
title. -/
def lpaper (t : String) : Paper :=
  { title := t, authors := [], abstract := "A", url := "", published := 0,
    source := "S" }

/-- Oracle that fails (as a network error) exactly on the prompt built for
the paper titled "T3" and succeeds with `decisionGood` on every other
prompt. -/
def oracleOneFailure : String → Except String Decision :=
  fun s =>
    if s = create_prompt cfgDS "T3" "A" "S" then .error "network down"
    else .ok decisionGood

set_option maxRecDepth 100000 in
/-- Witness for C6: with one injected failure in a batch of 5 papers, the
failed paper is scored `(False, 0, error)` without raising, and the batch
completes with exactly the other 4 papers scored normally. -/
theorem llm_failure_isolation_witness :
    oracleOneFailure (create_prompt cfgDS (lpaper "T3").title
      (lpaper "T3").abstract (lpaper "T3").source) = .error "network down" ∧
    llm_score_paper oracleOneFailure cfgDS 0 {} (lpaper "T3") =
      .ok ((false, 0, .err "network down" false),
        ⟨[], 0, 1, 1⟩) ∧
    (∃ out, llm_score_papers_batch oracleOneFailure cfgDS 0 {}
      [lpaper "T1", lpaper "T2", lpaper "T3", lpaper "T4", lpaper "T5"]
      50 = .ok out) ∧
    (llm_score_papers_batch oracleOneFailure cfgDS 0 {}
        [lpaper "T1", lpaper "T2", lpaper "T3", lpaper "T4", lpaper "T5"]
        50).toOption.map (fun out => out.1.map Paper.title) =
      some ["T1", "T2", "T4", "T5"] :=
  ⟨rfl,
   llm_failure_isolation.1 oracleOneFailure cfgDS 0 {} (lpaper "T3")
     "network down" rfl (Or.inl rfl) rfl,
   llm_failure_isolation.2.2 oracleOneFailure cfgDS 0 {}
     [lpaper "T1", lpaper "T2", lpaper "T3", lpaper "T4", lpaper "T5"] 50
     (fun e he => absurd he (List.not_mem_nil e)),
   by decide⟩
